import Mathlib

/-!
Verification of `main.go`, the actions-dashboard server.

The dashboard polls the hosting API for a set of repositories, looks up the
check-run of each repository's latest commit and prints one HTML tile per
repository.  This file embeds the program's functions in Lean and proves
properties of them.

Modelling conventions.

* Go strings are Lean `String`s, Go slices are `List`s, a `map[string]bool`
  is a function `String → Bool` (a missing key reads `false`).
* The package-level flag variables are the fields of `Config`.
* `httpRequest` followed by `json.Unmarshal` is a lookup in `Upstream`: for
  every URL the decoded payload, or `none` when the transport or the decoding
  fails (the source ends the process with `log.Fatalf` in both cases).
* A function that can end the process returns `Except Failure _`.
-/

namespace ActionsDashboard

/-! ## Data model -/

/-- The flag variables of `main.go` (`include` is spelled `includes` here as
the former is a reserved word). -/
structure Config where
  user : String := ""
  pass : String := ""
  port : String := "8080"
  org : String := ""
  topic : String := ""
  includes : String := ""
  exclude : String := ""
  divWidth : String := "200px"
  deriving DecidableEq, Repr

structure repoInfo where
  Name : String
  FullName : String
  HTMLUrl : String
  Topics : List String
  deriving DecidableEq, Repr

structure commitInfo where
  Sha : String
  deriving DecidableEq, Repr

structure checkRunInfo where
  Name : String
  Status : String
  Conclusion : String
  CompletedAt : String
  deriving DecidableEq, Repr

structure checkRunResponse where
  TotalCount : Int
  CheckRuns : List checkRunInfo
  deriving DecidableEq, Repr

structure repoStatus where
  Name : String
  Status : String
  URL : String
  Time : String
  deriving DecidableEq, Repr

/-- The two ways a call can end the process: `log.Fatal`/`log.Fatalf`, and a
run-time panic (index out of range). -/
inductive Failure where
  | fatal (msg : String)
  | panic (msg : String)
  deriving DecidableEq, Repr

deriving instance DecidableEq for Except

/-- The hosting API as the program sees it through `httpRequest` and
`json.Unmarshal`: the decoded payload of each URL, `none` when the request or
the decoding fails. -/
structure Upstream where
  repos : String → Option (List repoInfo)
  commits : String → Option (List commitInfo)
  checkRuns : String → Option checkRunResponse

/-! ## `strings.Split` and the lookup maps -/

/-- Splitting a character list at every occurrence of `sep`; the result is
never empty: the empty input gives one empty piece. -/
def splitChars (sep : Char) : List Char → List (List Char)
  | [] => [[]]
  | c :: cs =>
    if c = sep then [] :: splitChars sep cs
    else
      match splitChars sep cs with
      | [] => [[c]]
      | w :: ws => (c :: w) :: ws

/-- The call `strings.Split(s, sep)` for a one-character separator, the only
use the program makes of it (`sep = ","`). -/
def Split (s : String) (sep : Char) : List String :=
  (splitChars sep s.data).map String.mk

/-- A Go `map[string]bool`. -/
abbrev StrSet := String → Bool

/-- The statement `m[k] = true`. -/
def StrSet.set (m : StrSet) (k : String) : StrSet :=
  fun x => if x = k then true else m x

/-- The loop `for _, v := range strings.Split(csv, ",") { m[v] = true }` on a
fresh map. -/
def csvSet (csv : String) : StrSet :=
  (Split csv ',').foldl StrSet.set (fun _ => false)

/-! ## `getRepos` -/

/-- The inner loop of `getRepos` over one repository's topics: the repository
is appended once for every topic found in the topic map. -/
def appendPerTopic (topics : StrSet) (repo : repoInfo) :
    List String → List repoInfo → List repoInfo
  | [], list => list
  | t :: ts, list =>
    if topics t then appendPerTopic topics repo ts (list ++ [repo])
    else appendPerTopic topics repo ts list

/-- The loop of `getRepos` over the decoded repositories. -/
def filterLoop (includes excludes topics : StrSet) :
    List repoInfo → List repoInfo → List repoInfo
  | [], list => list
  | repo :: rest, list =>
    if !excludes repo.Name then
      if includes repo.Name then
        filterLoop includes excludes topics rest (list ++ [repo])
      else
        filterLoop includes excludes topics rest
          (appendPerTopic topics repo repo.Topics list)
    else
      filterLoop includes excludes topics rest list

/-- The first part of `getRepos`: the listing request for the organisation
or else for the user, and the decoding of its payload into `allRepos`. -/
def fetchRepos (cfg : Config) (up : Upstream) : Except Failure (List repoInfo) :=
  let body : Except Failure (Option (List repoInfo)) :=
    if cfg.org ≠ "" then
      .ok (up.repos ("https://api.github.com/orgs/" ++ cfg.org ++ "/repos"))
    else if cfg.user ≠ "" then
      .ok (up.repos ("https://api.github.com/users/" ++ cfg.user ++ "/repos"))
    else
      .error (.fatal "Either user or org is required")
  match body with
  | .error e => .error e
  | .ok none => .error (.fatal "Error parsing repo list")
  | .ok (some allRepos) => .ok allRepos

/-- The function `getRepos`: list the repositories of the organisation or of
the user, then keep the ones the include, exclude and topic flags select. -/
def getRepos (cfg : Config) (up : Upstream) : Except Failure (List repoInfo) :=
  match fetchRepos cfg up with
  | .error e => .error e
  | .ok allRepos =>
    .ok (filterLoop (csvSet cfg.includes) (csvSet cfg.exclude) (csvSet cfg.topic)
      allRepos [])

/-! ## Commit and check-run lookups -/

/-- The function `getShaOfLastCommit`: the sha of the first entry of the
repository's commit list; indexing an empty list panics. -/
def getShaOfLastCommit (up : Upstream) (repo : String) : Except Failure String :=
  match up.commits ("https://api.github.com/repos/" ++ repo ++ "/commits") with
  | none => .error (.fatal "Error parsing commit list")
  | some commits =>
    match commits with
    | [] => .error (.panic "index out of range [0] with length 0")
    | c :: _ => .ok c.Sha

/-- The function `getCheckRunStatusOfLastCommit`: `nil` (here `none`) unless
`total_count` is positive, otherwise a pointer to the first check-run;
indexing an empty list panics. -/
def getCheckRunStatusOfLastCommit (up : Upstream) (repo sha : String) :
    Except Failure (Option checkRunInfo) :=
  match up.checkRuns
      ("https://api.github.com/repos/" ++ repo ++ "/commits/" ++ sha ++ "/check-runs") with
  | none => .error (.fatal "Error parsing check-run info")
  | some info =>
    if info.TotalCount > 0 then
      match info.CheckRuns with
      | [] => .error (.panic "index out of range [0] with length 0")
      | r :: _ => .ok (some r)
    else
      .ok none

/-- The function `doRepoWork` up to its last statement: the value it then
sends on the channel. -/
def doRepoWork (up : Upstream) (repo : repoInfo) : Except Failure repoStatus :=
  match getShaOfLastCommit up repo.FullName with
  | .error e => .error e
  | .ok sha =>
    match getCheckRunStatusOfLastCommit up repo.FullName sha with
    | .error e => .error e
    | .ok runInfo =>
      let status : repoStatus :=
        { Name := repo.Name, Status := "unknown", URL := repo.HTMLUrl, Time := "" }
      match runInfo with
      | some r => .ok { status with Status := r.Conclusion, Time := r.CompletedAt }
      | none => .ok status

/-! ## `timeSince`

Instants are whole nanoseconds counted from a fixed origin, a `time.Duration`
is a whole number of nanoseconds in the `int64` range.  `time.Parse` and the
clock are parameters: `parse t` is the instant the timestamp `t` denotes (the
zero `Time` when `t` does not parse), `now` the clock reading of the call. -/

/-- The largest `time.Duration`, `1<<63 - 1` nanoseconds. -/
def maxDuration : Int := 9223372036854775807

/-- The smallest `time.Duration`, `-1 << 63` nanoseconds. -/
def minDuration : Int := -9223372036854775808

/-- The method `Time.Sub`, which `time.Since(ts)` calls as `Now().Sub(ts)`: the
difference `t - u`, replaced by the largest or smallest duration when it
does not fit a `time.Duration`. -/
def Sub (t u : Int) : Int :=
  if t - u > maxDuration then maxDuration
  else if t - u < minDuration then minDuration
  else t - u

/-- The test `since.Seconds() >= k` for a whole number `k` of seconds.
`Seconds` is a `float64`; the comparison is taken here on the exact value of
the duration.  The two agree on every duration of whole seconds and on the
largest duration. -/
def secondsGe (since k : Int) : Bool :=
  decide (k * 1000000000 ≤ since)

/-- The conversion `int(since.Seconds() / k)`: the quotient, truncated toward
zero.  The source divides in `float64`; the quotient is taken here on the
exact nanoseconds.  The two agree on every duration of whole seconds in the
`time.Duration` range and on the largest duration, whose `float64` seconds
lie between `9223372036` and `9223372037`.  On other durations the rounding
of `float64` can differ by one: at `18143999999999999` nanoseconds, one
nanosecond short of seven months, the source counts 7 months and this
definition 6.  The statements below on `timeSince` are on whole seconds and
on the largest duration. -/
def secondsDiv (since k : Int) : Int :=
  Int.tdiv since (k * 1000000000)

/-- The function `timeSince`. -/
def timeSince (parse : String → Int) (now : Int) (t : String) : String :=
  if t = "" then ""
  else
    let ts := parse t
    let since := Sub now ts
    let cu : Int × String :=
      if secondsGe since (86400 * 30) then (secondsDiv since (86400 * 30), "month")
      else if secondsGe since 86400 then (secondsDiv since 86400, "day")
      else if secondsGe since 3600 then (secondsDiv since 3600, "hour")
      else if secondsGe since 60 then (secondsDiv since 60, "minute")
      else (secondsDiv since 1, "second")
    let unit := if cu.1 > 1 then cu.2 ++ "s" else cu.2
    toString cu.1 ++ " " ++ unit ++ " ago"

/-! ## The page -/

/-- One `fmt.Fprintf(w, ...)` whose formatted text is `text`: the text is
appended to what has been written to `w`. -/
def Fprintf (w text : String) : String := w ++ text

/-- The statements of the handler that print the head of the page. -/
def writeHead (cfg : Config) (w : String) : String :=
  let w := Fprintf w "<html><head>"
  let w := Fprintf w "<style>"
  let w := Fprintf w "body \x7b background-color: black; color: white; \x7d"
  let w := Fprintf w "a \x7b color: white; text-decoration: none; \x7d"
  let w := Fprintf w
    ("div \x7b margin: 5px; padding: 15px; float: left; min-width: " ++ cfg.divWidth ++ " \x7d")
  let w := Fprintf w ".success \x7b background-color: #259225; \x7d"
  let w := Fprintf w ".unknown \x7b background-color: #9d9d9d; \x7d"
  let w := Fprintf w ".failure \x7b background-color: #eb0000; \x7d"
  let w := Fprintf w "</style>"
  Fprintf w "</head><body>"

/-- The loop `for _, v := range s` of the handler; `now k` is the clock
reading of the `k`-th call of `timeSince` and `k` counts the tiles printed so
far. -/
def writeTiles (parse : String → Int) (now : Nat → Int) :
    Nat → List repoStatus → String → String
  | _, [], w => w
  | k, v :: rest, w =>
    writeTiles parse now (k + 1) rest
      (Fprintf w ("<a href=\"" ++ v.URL ++ "\" target=\"_blank\"><div class=\"" ++ v.Status
        ++ "\"><p>" ++ v.Name ++ "</p><p>" ++ timeSince parse (now k) v.Time ++ "</p><p>"
        ++ v.Time ++ "</p></div></a>"))

/-- What the handler prints once the statuses `s` are collected. -/
def render (cfg : Config) (parse : String → Int) (now : Nat → Int)
    (s : List repoStatus) : String :=
  let w := writeHead cfg ""
  let w := writeTiles parse now 0 s w
  Fprintf w "</body></html>"

/-! ## The handler and its join

The channel `c` is made once in `main`, before the handler is registered:
every invocation of the handler and every `doRepoWork` unit uses this one
channel.  The server state holds the handler invocations in flight and the
units blocked in their send on `c` (the channel is unbuffered, a send
completes only when a handler receives it). -/

/-- One invocation of the handler: its repository list, the slice `s` and the
counter `i` of its receive loop. -/
structure Request where
  repos : List repoInfo
  s : List repoStatus
  i : Nat
  deriving DecidableEq, Repr

/-- The running server: the handler invocations, and the statuses of the
`doRepoWork` units waiting in `c <- status`. -/
structure Server where
  requests : List Request
  c : List repoStatus
  deriving DecidableEq, Repr

/-- What can happen next: a request arrives and its handler runs up to its
receive loop, or handler `h` receives the status of waiting unit `u`. -/
inductive Event where
  | serve
  | recv (h u : Nat)
  deriving DecidableEq, Repr

/-- The loop `for _, repo := range repos { go doRepoWork(repo, c) }` followed
by the run of every started unit up to its send: the waiting statuses are
added to those already waiting on `c`.  A unit that fails ends the process. -/
def startUnits (up : Upstream) :
    List repoInfo → List repoStatus → Except Failure (List repoStatus)
  | [], c => .ok c
  | repo :: rest, c =>
    match doRepoWork up repo with
    | .error e => .error e
    | .ok status => startUnits up rest (c ++ [status])

/-- One step of the server; `none` when the event cannot happen in this
state, or when the process ends in it. -/
def step (cfg : Config) (up : Upstream) (sv : Server) : Event → Option Server
  | .serve =>
    match getRepos cfg up with
    | .error _ => none
    | .ok repos =>
      match startUnits up repos sv.c with
      | .error _ => none
      | .ok c => some { requests := sv.requests ++ [{ repos := repos, s := [], i := 0 }], c := c }
  | .recv h u =>
    match sv.requests[h]?, sv.c[u]? with
    | some r, some resp =>
      if r.i < r.repos.length then
        some { requests := sv.requests.set h { r with s := r.s ++ [resp], i := r.i + 1 },
               c := sv.c.eraseIdx u }
      else none
    | _, _ => none

/-- A run of the server along a list of events. -/
def run (cfg : Config) (up : Upstream) : Server → List Event → Option Server
  | sv, [] => some sv
  | sv, e :: es =>
    match step cfg up sv e with
    | none => none
    | some sv1 => run cfg up sv1 es

/-- The server before any request. -/
def idle : Server := { requests := [], c := [] }

/-- The receive loop `for i := 0; i < len(repos); i++` of an invocation is
over. -/
def Request.joined (r : Request) : Bool := decide (¬ r.i < r.repos.length)

/-- The statuses that `doRepoWork` builds for the repositories of a list, in
the list's order. -/
def statusesOf (up : Upstream) (repos : List repoInfo) : Except Failure (List repoStatus) :=
  startUnits up repos []

/-! ## Fixtures and the filter as the specification words it -/

/-- An upstream whose repository listing is `all` whatever the URL, and that
knows no commit and no check-run. -/
def listingOnly (all : List repoInfo) : Upstream :=
  { repos := fun _ => some all, commits := fun _ => none, checkRuns := fun _ => none }

/-- The predicate of the specification: the name is not excluded, and the
name is included or some topic of the repository is in the topic set. -/
def keeps (includes excludes topics : StrSet) (repo : repoInfo) : Bool :=
  !excludes repo.Name && (includes repo.Name || repo.Topics.any topics)

/-- How many times the loop of `getRepos` appends a repository. -/
def copies (includes excludes topics : StrSet) (repo : repoInfo) : Nat :=
  if !excludes repo.Name then
    if includes repo.Name then 1 else repo.Topics.countP topics
  else 0

/-- A stub upstream: the same repository listing, commit list and check-run
response whatever the URL. -/
def stub (all : List repoInfo) (commits : List commitInfo) (info : checkRunResponse) :
    Upstream :=
  { repos := fun _ => some all, commits := fun _ => some commits, checkRuns := fun _ => some info }

/-- The units of the relative time with their length in seconds, longest
first. -/
def units : List (Nat × String) :=
  [(2592000, "month"), (86400, "day"), (3600, "hour"), (60, "minute"), (1, "second")]

/-- The largest unit whose length is at most `e` seconds, the second when
there is none. -/
def unitOf (e : Nat) : Nat × String :=
  (units.find? (fun u => decide (u.1 ≤ e))).getD (1, "second")

/-- The concatenation of a list of strings, in the list's order. -/
def concat : List String → String
  | [] => ""
  | x :: xs => x ++ concat xs

/-- The state of a server that has accepted one request only: the statuses
collected so far together with the waiting ones are the statuses built for
the request's repositories. -/
def Alone (cfg : Config) (up : Upstream) (sv : Server) : Prop :=
  ∃ r sts, sv.requests = [r] ∧ getRepos cfg up = .ok r.repos
    ∧ statusesOf up r.repos = .ok sts ∧ (r.s ++ sv.c).Perm sts ∧ r.i = r.s.length

/-! ## Lemmas on the lookup maps and the filter loop -/

theorem foldl_set_true_iff (l : List String) (m : StrSet) (k : String) :
    l.foldl StrSet.set m k = true ↔ k ∈ l ∨ m k = true := by
  induction l generalizing m with
  | nil => simp
  | cons a l ih =>
    rw [List.foldl_cons, ih]
    by_cases hk : k = a
    · simp [StrSet.set, hk]
    · simp [StrSet.set, hk]

theorem csvSet_true_iff (csv k : String) :
    csvSet csv k = true ↔ k ∈ Split csv ',' := by
  unfold csvSet
  rw [foldl_set_true_iff]
  simp

theorem appendPerTopic_eq (topics : StrSet) (repo : repoInfo) (ts : List String)
    (list : List repoInfo) :
    appendPerTopic topics repo ts list = list ++ List.replicate (ts.countP topics) repo := by
  induction ts generalizing list with
  | nil => simp [appendPerTopic]
  | cons t ts ih =>
    by_cases ht : topics t = true
    · simp [appendPerTopic, ht, ih, List.countP_cons, List.replicate_succ, Nat.add_comm]
    · simp [appendPerTopic, ht, ih, List.countP_cons]

theorem filterLoop_eq (includes excludes topics : StrSet) (all list : List repoInfo) :
    filterLoop includes excludes topics all list
      = list ++ all.flatMap (fun r => List.replicate (copies includes excludes topics r) r) := by
  induction all generalizing list with
  | nil => simp [filterLoop]
  | cons repo rest ih =>
    by_cases hx : excludes repo.Name = true
    · simp [filterLoop, copies, hx, ih]
    · by_cases hi : includes repo.Name = true
      · simp [filterLoop, copies, hx, hi, ih]
      · simp [filterLoop, copies, hx, hi, ih, appendPerTopic_eq]

theorem count_flatMap_replicate (f : repoInfo → Nat) (r : repoInfo) (all : List repoInfo) :
    (all.flatMap (fun x => List.replicate (f x) x)).count r = all.count r * f r := by
  induction all with
  | nil => simp
  | cons a all ih =>
    by_cases ha : a = r
    · subst ha
      simp [List.flatMap_cons, ih, List.count_replicate, Nat.add_mul, Nat.add_comm]
    · have hne : (a == r) = false := by simpa using ha
      simp [List.flatMap_cons, ih, List.count_replicate, List.count_cons, hne]

theorem getRepos_of_fetch (cfg : Config) (up : Upstream) (all : List repoInfo)
    (h : fetchRepos cfg up = .ok all) :
    getRepos cfg up = .ok (all.flatMap (fun r =>
      List.replicate (copies (csvSet cfg.includes) (csvSet cfg.exclude) (csvSet cfg.topic) r) r)) := by
  simp [getRepos, h, filterLoop_eq]

theorem fetch_of_getRepos (cfg : Config) (up : Upstream) (list : List repoInfo)
    (h : getRepos cfg up = .ok list) :
    ∃ all, fetchRepos cfg up = .ok all := by
  unfold getRepos at h
  cases hf : fetchRepos cfg up with
  | error e => rw [hf] at h; cases h
  | ok all => exact ⟨all, rfl⟩

theorem csvSet_empty (k : String) : csvSet "" k = true ↔ k = "" := by
  rw [csvSet_true_iff]
  have hs : Split "" ',' = [""] := by decide
  rw [hs]
  simp

theorem countP_csvSet_empty (ts : List String) (h : "" ∉ ts) :
    ts.countP (csvSet "") = 0 := by
  rw [List.countP_eq_zero]
  intro t ht hc
  have := (csvSet_empty t).1 hc
  exact h (this ▸ ht)

theorem flatMap_copies_eq_filter (inc : String) (all : List repoInfo)
    (hname : ∀ r ∈ all, r.Name ≠ "") (htop : ∀ r ∈ all, "" ∉ r.Topics) :
    all.flatMap (fun r => List.replicate (copies (csvSet inc) (csvSet "") (csvSet "") r) r)
      = all.filter (fun r => decide (r.Name ∈ Split inc ',')) := by
  induction all with
  | nil => simp
  | cons a all ih =>
    have hn : csvSet "" a.Name = false := by
      cases hc : csvSet "" a.Name with
      | false => rfl
      | true => exact absurd ((csvSet_empty _).1 hc) (hname a (List.mem_cons_self _ _))
    have hcount := countP_csvSet_empty a.Topics (htop a (List.mem_cons_self _ _))
    have ih2 := ih (fun r hr => hname r (List.mem_cons_of_mem _ hr))
      (fun r hr => htop r (List.mem_cons_of_mem _ hr))
    rw [List.flatMap_cons, ih2]
    by_cases hi : a.Name ∈ Split inc ','
    · have hci : csvSet inc a.Name = true := (csvSet_true_iff _ _).2 hi
      simp [copies, hn, hci, hi]
    · have hci : csvSet inc a.Name = false := by
        cases hc : csvSet inc a.Name with
        | false => rfl
        | true => exact absurd ((csvSet_true_iff _ _).1 hc) hi
      simp [copies, hn, hci, hi, hcount]

/-! ## The repository filter -/

/-- C2, the code at the failing input: with the topic flag `a,b` a candidate
carrying both topics is returned twice by `getRepos`, while filtering the
candidate list by the predicate of the specification returns it once. -/
theorem getRepos_appends_once_per_matching_topic :
    getRepos { user := "u", topic := "a,b" }
        (listingOnly [{ Name := "x", FullName := "u/x", HTMLUrl := "", Topics := ["a", "b"] }])
      = .ok [{ Name := "x", FullName := "u/x", HTMLUrl := "", Topics := ["a", "b"] },
             { Name := "x", FullName := "u/x", HTMLUrl := "", Topics := ["a", "b"] }]
    ∧ [({ Name := "x", FullName := "u/x", HTMLUrl := "", Topics := ["a", "b"] } : repoInfo)].filter
          (keeps (csvSet "") (csvSet "") (csvSet "a,b"))
      = [{ Name := "x", FullName := "u/x", HTMLUrl := "", Topics := ["a", "b"] }] := by
  decide

/-- C3: no repository returned by `getRepos` has its name among the entries
of the exclude flag, whatever the include and topic flags are. -/
theorem getRepos_exclude_dominates (cfg : Config) (up : Upstream) (list : List repoInfo)
    (r : repoInfo) (h : getRepos cfg up = .ok list) (hr : r ∈ list) :
    r.Name ∉ Split cfg.exclude ',' := by
  obtain ⟨all, hall⟩ := fetch_of_getRepos cfg up list h
  rw [getRepos_of_fetch cfg up all hall] at h
  injection h with h
  subst h
  rw [List.mem_flatMap] at hr
  obtain ⟨a, _, hra⟩ := hr
  rw [List.mem_replicate] at hra
  obtain ⟨hn, rfl⟩ := hra
  intro hmem
  apply hn
  have hx : csvSet cfg.exclude r.Name = true := (csvSet_true_iff _ _).2 hmem
  simp [copies, hx]

/-- C3 at a concrete input: `a` is on the include list and `b`, which carries
the wanted topic, is on both the include and the exclude list. -/
theorem getRepos_exclude_dominates_witness :
    "a" ∉ Split "b" ',' :=
  getRepos_exclude_dominates { user := "u", includes := "a,b", exclude := "b", topic := "t" }
    (listingOnly [{ Name := "a", FullName := "u/a", HTMLUrl := "", Topics := [] },
                  { Name := "b", FullName := "u/b", HTMLUrl := "", Topics := ["t"] }])
    [{ Name := "a", FullName := "u/a", HTMLUrl := "", Topics := [] }]
    { Name := "a", FullName := "u/a", HTMLUrl := "", Topics := [] }
    (by decide) (by decide)

/-- C7, counterexample: with empty exclude and topic flags a candidate
carrying the empty topic is returned although its name is no entry of the
include flag, and a candidate with the empty name is dropped although the
empty name is an entry of the include flag: the empty-string entry of an
empty flag does match an empty topic and an empty name. -/
theorem getRepos_empty_flag_entry_matches :
    (getRepos { user := "u", includes := "a" }
        (listingOnly [{ Name := "c", FullName := "u/c", HTMLUrl := "", Topics := [""] }])
      = .ok [{ Name := "c", FullName := "u/c", HTMLUrl := "", Topics := [""] }]
      ∧ "c" ∉ Split "a" ',')
    ∧ (getRepos { user := "u", includes := "a,,b" }
        (listingOnly [{ Name := "", FullName := "u/", HTMLUrl := "", Topics := [] }])
      = .ok []
      ∧ "" ∈ Split "a,,b" ',') := by
  decide

/-- C7, amended: when the exclude and topic flags are both empty, the map
built from an empty flag has the empty string as its one key, and on every
listing in which no candidate has the empty name and no candidate carries
the empty topic `getRepos` returns exactly the candidates whose name is an
entry of the include flag, in their original order. -/
theorem getRepos_include_only (cfg : Config) (up : Upstream) (all : List repoInfo)
    (hall : fetchRepos cfg up = .ok all) (hx : cfg.exclude = "") (ht : cfg.topic = "")
    (hname : ∀ r ∈ all, r.Name ≠ "") (htop : ∀ r ∈ all, "" ∉ r.Topics) :
    (∀ k, csvSet "" k = true ↔ k = "")
    ∧ getRepos cfg up
        = .ok (all.filter (fun r => decide (r.Name ∈ Split cfg.includes ','))) := by
  refine ⟨csvSet_empty, ?_⟩
  rw [getRepos_of_fetch cfg up all hall, hx, ht]
  congr 1
  exact flatMap_copies_eq_filter cfg.includes all hname htop

/-- C7, amended, at the input of the specification: the include flag `a,b`
and the candidates `a`, `b`, `c` give `a`, `b`. -/
theorem getRepos_include_only_witness :
    ((∀ k, csvSet "" k = true ↔ k = "")
      ∧ getRepos { user := "u", includes := "a,b" }
          (listingOnly [{ Name := "a", FullName := "u/a", HTMLUrl := "", Topics := [] },
                        { Name := "b", FullName := "u/b", HTMLUrl := "", Topics := ["ci"] },
                        { Name := "c", FullName := "u/c", HTMLUrl := "", Topics := ["ci"] }])
        = .ok (([{ Name := "a", FullName := "u/a", HTMLUrl := "", Topics := [] },
                 { Name := "b", FullName := "u/b", HTMLUrl := "", Topics := ["ci"] },
                 { Name := "c", FullName := "u/c", HTMLUrl := "", Topics := ["ci"] }] :
                  List repoInfo).filter
                (fun r => decide (r.Name ∈ Split "a,b" ','))))
    ∧ getRepos { user := "u", includes := "a,b" }
        (listingOnly [{ Name := "a", FullName := "u/a", HTMLUrl := "", Topics := [] },
                      { Name := "b", FullName := "u/b", HTMLUrl := "", Topics := ["ci"] },
                      { Name := "c", FullName := "u/c", HTMLUrl := "", Topics := ["ci"] }])
      = .ok [{ Name := "a", FullName := "u/a", HTMLUrl := "", Topics := [] },
             { Name := "b", FullName := "u/b", HTMLUrl := "", Topics := ["ci"] }] :=
  ⟨getRepos_include_only { user := "u", includes := "a,b" }
      (listingOnly [{ Name := "a", FullName := "u/a", HTMLUrl := "", Topics := [] },
                    { Name := "b", FullName := "u/b", HTMLUrl := "", Topics := ["ci"] },
                    { Name := "c", FullName := "u/c", HTMLUrl := "", Topics := ["ci"] }])
      [{ Name := "a", FullName := "u/a", HTMLUrl := "", Topics := [] },
       { Name := "b", FullName := "u/b", HTMLUrl := "", Topics := ["ci"] },
       { Name := "c", FullName := "u/c", HTMLUrl := "", Topics := ["ci"] }]
      (by decide) rfl rfl (by decide) (by decide),
   by decide⟩

/-- C8: a candidate that occurs once in the listing, whose name is an entry
of the include flag and no entry of the exclude flag, and one or more of
whose topics are entries of the topic flag, occurs exactly once in the list
returned by `getRepos`. -/
theorem getRepos_included_with_topic_once (cfg : Config) (up : Upstream)
    (all : List repoInfo) (r : repoInfo)
    (hall : fetchRepos cfg up = .ok all) (hr : all.count r = 1)
    (hinc : r.Name ∈ Split cfg.includes ',') (hexc : r.Name ∉ Split cfg.exclude ',')
    (_htop : ∃ t ∈ r.Topics, t ∈ Split cfg.topic ',') :
    ∃ list, getRepos cfg up = .ok list ∧ list.count r = 1 := by
  refine ⟨_, getRepos_of_fetch cfg up all hall, ?_⟩
  rw [count_flatMap_replicate, hr]
  have hi : csvSet cfg.includes r.Name = true := (csvSet_true_iff _ _).2 hinc
  have hx : csvSet cfg.exclude r.Name = false := by
    cases hc : csvSet cfg.exclude r.Name with
    | false => rfl
    | true => exact absurd ((csvSet_true_iff _ _).1 hc) hexc
  simp [copies, hi, hx]

/-- C8 at a concrete input: `x` is on the include list and carries both
wanted topics. -/
theorem getRepos_included_with_topic_once_witness :
    ∃ list, getRepos { user := "u", includes := "x", topic := "a,b" }
        (listingOnly [{ Name := "x", FullName := "u/x", HTMLUrl := "", Topics := ["a", "b"] },
                      { Name := "y", FullName := "u/y", HTMLUrl := "", Topics := ["a"] }])
      = .ok list
      ∧ list.count { Name := "x", FullName := "u/x", HTMLUrl := "", Topics := ["a", "b"] } = 1 :=
  getRepos_included_with_topic_once { user := "u", includes := "x", topic := "a,b" }
    (listingOnly [{ Name := "x", FullName := "u/x", HTMLUrl := "", Topics := ["a", "b"] },
                  { Name := "y", FullName := "u/y", HTMLUrl := "", Topics := ["a"] }])
    [{ Name := "x", FullName := "u/x", HTMLUrl := "", Topics := ["a", "b"] },
     { Name := "y", FullName := "u/y", HTMLUrl := "", Topics := ["a"] }]
    { Name := "x", FullName := "u/x", HTMLUrl := "", Topics := ["a", "b"] }
    (by decide) (by decide) (by decide) (by decide) ⟨"a", by decide, by decide⟩

/-! ## Commit and check-run lookups -/

/-- C10: when the commit list of the repository decodes, `getShaOfLastCommit`
fails exactly when the list is empty, and on a non-empty list it returns the
sha of the first entry. -/
theorem getShaOfLastCommit_fails_iff_empty (up : Upstream) (repo : String)
    (commits : List commitInfo)
    (h : up.commits ("https://api.github.com/repos/" ++ repo ++ "/commits") = some commits) :
    ((∃ e, getShaOfLastCommit up repo = .error e) ↔ commits = [])
    ∧ ∀ c cs, commits = c :: cs → getShaOfLastCommit up repo = .ok c.Sha := by
  cases commits with
  | nil => simp [getShaOfLastCommit, h]
  | cons c cs => simp [getShaOfLastCommit, h]

/-- C10 at a concrete input: a commit list of two entries. -/
theorem getShaOfLastCommit_fails_iff_empty_witness :
    ((∃ e, getShaOfLastCommit
        (stub [] [{ Sha := "deadbeef" }, { Sha := "cafe" }] { TotalCount := 0, CheckRuns := [] })
        "u/x" = .error e)
      ↔ [({ Sha := "deadbeef" } : commitInfo), { Sha := "cafe" }] = [])
    ∧ ∀ c cs, [({ Sha := "deadbeef" } : commitInfo), { Sha := "cafe" }] = c :: cs →
        getShaOfLastCommit
          (stub [] [{ Sha := "deadbeef" }, { Sha := "cafe" }] { TotalCount := 0, CheckRuns := [] })
          "u/x" = .ok c.Sha :=
  getShaOfLastCommit_fails_iff_empty
    (stub [] [{ Sha := "deadbeef" }, { Sha := "cafe" }] { TotalCount := 0, CheckRuns := [] })
    "u/x" [{ Sha := "deadbeef" }, { Sha := "cafe" }] rfl

/-- C4: when the check-run response for the latest commit of a repository
reports `total_count = 0`, `getCheckRunStatusOfLastCommit` returns `nil`,
`doRepoWork` emits the status `"unknown"` with the empty time, the name and
the web URL of the repository, and `timeSince` of that empty time is the
empty string. -/
theorem doRepoWork_unknown_of_zero_count (up : Upstream) (parse : String → Int) (now : Int)
    (repo : repoInfo) (sha : String) (info : checkRunResponse)
    (hs : getShaOfLastCommit up repo.FullName = .ok sha)
    (hi : up.checkRuns ("https://api.github.com/repos/" ++ repo.FullName ++ "/commits/"
            ++ sha ++ "/check-runs") = some info)
    (h0 : info.TotalCount = 0) :
    getCheckRunStatusOfLastCommit up repo.FullName sha = .ok none
    ∧ doRepoWork up repo
        = .ok { Name := repo.Name, Status := "unknown", URL := repo.HTMLUrl, Time := "" }
    ∧ ∀ status, doRepoWork up repo = .ok status → timeSince parse now status.Time = "" := by
  have hg : getCheckRunStatusOfLastCommit up repo.FullName sha = .ok none := by
    simp [getCheckRunStatusOfLastCommit, hi, h0]
  have hd : doRepoWork up repo
      = .ok { Name := repo.Name, Status := "unknown", URL := repo.HTMLUrl, Time := "" } := by
    simp [doRepoWork, hs, hg]
  refine ⟨hg, hd, ?_⟩
  intro status hst
  rw [hd] at hst
  injection hst with hst
  subst hst
  simp [timeSince]

/-- C4 at a concrete input: one commit, a response with no check-run. -/
theorem doRepoWork_unknown_of_zero_count_witness :
    getCheckRunStatusOfLastCommit
        (stub [] [{ Sha := "deadbeef" }] { TotalCount := 0, CheckRuns := [] }) "u/x" "deadbeef"
      = .ok none
    ∧ doRepoWork (stub [] [{ Sha := "deadbeef" }] { TotalCount := 0, CheckRuns := [] })
        { Name := "x", FullName := "u/x", HTMLUrl := "https://host/u/x", Topics := ["ci"] }
      = .ok { Name := "x", Status := "unknown", URL := "https://host/u/x", Time := "" }
    ∧ ∀ status,
        doRepoWork (stub [] [{ Sha := "deadbeef" }] { TotalCount := 0, CheckRuns := [] })
          { Name := "x", FullName := "u/x", HTMLUrl := "https://host/u/x", Topics := ["ci"] }
          = .ok status →
        timeSince (fun _ => 0) 90000000000 status.Time = "" :=
  doRepoWork_unknown_of_zero_count
    (stub [] [{ Sha := "deadbeef" }] { TotalCount := 0, CheckRuns := [] })
    (fun _ => 0) 90000000000
    { Name := "x", FullName := "u/x", HTMLUrl := "https://host/u/x", Topics := ["ci"] }
    "deadbeef" { TotalCount := 0, CheckRuns := [] } (by decide) rfl rfl

/-- C5, counterexample: a response whose total count is `-1`, nonzero, and
whose list holds one check-run; `getCheckRunStatusOfLastCommit` returns `nil`
and not that first record, and `doRepoWork` emits `"unknown"` with the empty
time. -/
theorem getCheckRunStatusOfLastCommit_negative_count :
    (-1 : Int) ≠ 0
    ∧ getCheckRunStatusOfLastCommit
        (stub [] [{ Sha := "deadbeef" }]
          { TotalCount := -1,
            CheckRuns := [{ Name := "build", Status := "completed", Conclusion := "success",
                            CompletedAt := "2024-01-01T00:00:00Z" }] })
        "u/x" "deadbeef"
      = .ok none
    ∧ doRepoWork
        (stub [] [{ Sha := "deadbeef" }]
          { TotalCount := -1,
            CheckRuns := [{ Name := "build", Status := "completed", Conclusion := "success",
                            CompletedAt := "2024-01-01T00:00:00Z" }] })
        { Name := "x", FullName := "u/x", HTMLUrl := "https://host/u/x", Topics := [] }
      = .ok { Name := "x", Status := "unknown", URL := "https://host/u/x", Time := "" } := by
  decide

/-- C5, amended: when the check-run response for the latest commit of a
repository reports a total count greater than zero and lists one or more
check-runs, `getCheckRunStatusOfLastCommit` returns the first listed record
and `doRepoWork` emits a status whose label is that record's conclusion and
whose time is that record's completion timestamp. -/
theorem doRepoWork_first_check_run (up : Upstream) (repo : repoInfo) (sha : String)
    (info : checkRunResponse) (r : checkRunInfo) (rs : List checkRunInfo)
    (hs : getShaOfLastCommit up repo.FullName = .ok sha)
    (hi : up.checkRuns ("https://api.github.com/repos/" ++ repo.FullName ++ "/commits/"
            ++ sha ++ "/check-runs") = some info)
    (hpos : info.TotalCount > 0) (hruns : info.CheckRuns = r :: rs) :
    getCheckRunStatusOfLastCommit up repo.FullName sha = .ok (some r)
    ∧ doRepoWork up repo
        = .ok { Name := repo.Name, Status := r.Conclusion, URL := repo.HTMLUrl,
                Time := r.CompletedAt } := by
  have hg : getCheckRunStatusOfLastCommit up repo.FullName sha = .ok (some r) := by
    simp [getCheckRunStatusOfLastCommit, hi, hpos, hruns]
  exact ⟨hg, by simp [doRepoWork, hs, hg]⟩

/-- C5, amended, at a concrete input: a total count of two and two listed
check-runs. -/
theorem doRepoWork_first_check_run_witness :
    getCheckRunStatusOfLastCommit
        (stub [] [{ Sha := "deadbeef" }]
          { TotalCount := 2,
            CheckRuns := [{ Name := "build", Status := "completed", Conclusion := "failure",
                            CompletedAt := "2024-01-01T00:00:00Z" },
                          { Name := "lint", Status := "completed", Conclusion := "success",
                            CompletedAt := "2024-01-02T00:00:00Z" }] })
        "u/x" "deadbeef"
      = .ok (some { Name := "build", Status := "completed", Conclusion := "failure",
                    CompletedAt := "2024-01-01T00:00:00Z" })
    ∧ doRepoWork
        (stub [] [{ Sha := "deadbeef" }]
          { TotalCount := 2,
            CheckRuns := [{ Name := "build", Status := "completed", Conclusion := "failure",
                            CompletedAt := "2024-01-01T00:00:00Z" },
                          { Name := "lint", Status := "completed", Conclusion := "success",
                            CompletedAt := "2024-01-02T00:00:00Z" }] })
        { Name := "x", FullName := "u/x", HTMLUrl := "https://host/u/x", Topics := [] }
      = .ok { Name := "x", Status := "failure", URL := "https://host/u/x",
              Time := "2024-01-01T00:00:00Z" } :=
  doRepoWork_first_check_run _
    { Name := "x", FullName := "u/x", HTMLUrl := "https://host/u/x", Topics := [] }
    "deadbeef" _
    { Name := "build", Status := "completed", Conclusion := "failure",
      CompletedAt := "2024-01-01T00:00:00Z" }
    [{ Name := "lint", Status := "completed", Conclusion := "success",
       CompletedAt := "2024-01-02T00:00:00Z" }]
    (by decide) rfl (by decide) rfl

/-! ## Relative time -/

theorem Sub_whole (now ts : Int) (e : Nat) (he : now - ts = (e : Int) * 1000000000)
    (hb : e ≤ 9223372036) : Sub now ts = (e : Int) * 1000000000 := by
  unfold Sub maxDuration minDuration
  rw [he]
  split_ifs <;> omega

theorem secondsGe_whole (e k : Nat) :
    secondsGe ((e : Int) * 1000000000) (k : Int) = decide (k ≤ e) := by
  unfold secondsGe
  apply decide_eq_decide.2
  constructor <;> intro h <;> omega

theorem secondsDiv_whole (e k : Nat) :
    secondsDiv ((e : Int) * 1000000000) (k : Int) = ((e / k : Nat) : Int) := by
  unfold secondsDiv
  have h1 : ((e : Int) * 1000000000) = ((e * 1000000000 : Nat) : Int) := by push_cast; rfl
  have h2 : ((k : Int) * 1000000000) = ((k * 1000000000 : Nat) : Int) := by push_cast; rfl
  rw [h1, h2, ← Int.ofNat_tdiv, Nat.mul_div_mul_right _ _ (by decide)]

/-- C6, counterexample: a timestamp lying `10000000000` whole seconds (about
317 years) before now, as `1709-12-15T06:13:20Z` does on
`2026-11-04T00:00:00Z`.  The month is the largest unit that fits and
`10000000000 / 2592000 = 3858`, yet `timeSince` returns `3558 months ago`:
the elapsed time does not fit a `time.Duration` and `Time.Sub` returns the
largest duration instead. -/
theorem timeSince_saturates :
    timeSince (fun _ => 0) (10000000000 * 1000000000) "1709-12-15T06:13:20Z" = "3558 months ago"
    ∧ unitOf 10000000000 = (2592000, "month")
    ∧ 10000000000 / 2592000 = 3858 := by
  decide

/-- C6, amended: for every non-empty timestamp lying a whole number `e` of
seconds before now, `0 ≤ e ≤ 9223372036` (the elapsed time fits a
`time.Duration`), `timeSince` returns `<count> <unit> ago` where the unit is
the largest of month, day, hour, minute, second whose length is at most `e`
(the second when `e < 60`), the count is `e` divided by the unit length,
rounded down, and the label carries a trailing `s` exactly when the count is
greater than one. -/
theorem timeSince_whole_seconds (parse : String → Int) (now : Int) (t : String) (e : Nat)
    (ht : t ≠ "") (he : now - parse t = (e : Int) * 1000000000) (hb : e ≤ 9223372036) :
    timeSince parse now t
      = toString (e / (unitOf e).1) ++ " "
          ++ ((unitOf e).2 ++ if e / (unitOf e).1 > 1 then "s" else "") ++ " ago" := by
  have hsub := Sub_whole now (parse t) e he hb
  have g1 := secondsGe_whole e 2592000
  have g2 := secondsGe_whole e 86400
  have g3 := secondsGe_whole e 3600
  have g4 := secondsGe_whole e 60
  have d1 := secondsDiv_whole e 2592000
  have d2 := secondsDiv_whole e 86400
  have d3 := secondsDiv_whole e 3600
  have d4 := secondsDiv_whole e 60
  have d5 := secondsDiv_whole e 1
  simp only [Nat.cast_ofNat, Nat.cast_one, Nat.div_one] at g1 g2 g3 g4 d1 d2 d3 d4 d5
  have hm : (86400 * 30 : Int) = 2592000 := by norm_num
  unfold timeSince
  rw [if_neg ht]
  simp only [hsub, hm, g1, g2, g3, g4, d1, d2, d3, d4, d5]
  have hstr : ∀ n : Nat, toString ((n : Nat) : Int) = toString n := fun _ => rfl
  by_cases h1 : 2592000 ≤ e
  · have hu : unitOf e = (2592000, "month") := by simp [unitOf, units, h1]
    simp only [hu]
    generalize e / 2592000 = q
    by_cases hc : 1 < q <;> simp [h1, hc, hstr]
  · by_cases h2 : 86400 ≤ e
    · have hu : unitOf e = (86400, "day") := by simp [unitOf, units, h1, h2]
      simp only [hu]
      generalize e / 86400 = q
      by_cases hc : 1 < q <;> simp [h1, h2, hc, hstr]
    · by_cases h3 : 3600 ≤ e
      · have hu : unitOf e = (3600, "hour") := by simp [unitOf, units, h1, h2, h3]
        simp only [hu]
        generalize e / 3600 = q
        by_cases hc : 1 < q <;> simp [h1, h2, h3, hc, hstr]
      · by_cases h4 : 60 ≤ e
        · have hu : unitOf e = (60, "minute") := by simp [unitOf, units, h1, h2, h3, h4]
          simp only [hu]
          generalize e / 60 = q
          by_cases hc : 1 < q <;> simp [h1, h2, h3, h4, hc, hstr]
        · have hu : unitOf e = (1, "second") := by
            by_cases h5 : 1 ≤ e <;> simp [unitOf, units, h1, h2, h3, h4, h5]
          simp only [hu, Nat.div_one]
          by_cases hc : 1 < e <;> simp [h1, h2, h3, h4, hc, hstr]

/-- C6, amended, at concrete inputs: 90 seconds, on which the theorem gives
the count `90 / 60` and the unit `minute`; evaluated, 90 and 61 seconds give
`1 minute ago` and 59 seconds give `59 seconds ago`. -/
theorem timeSince_whole_seconds_witness :
    timeSince (fun _ => 0) 90000000000 "2024-01-01T00:00:00Z"
      = toString (90 / (unitOf 90).1) ++ " "
          ++ ((unitOf 90).2 ++ if 90 / (unitOf 90).1 > 1 then "s" else "") ++ " ago"
    ∧ timeSince (fun _ => 0) 90000000000 "2024-01-01T00:00:00Z" = "1 minute ago"
    ∧ timeSince (fun _ => 0) 61000000000 "2024-01-01T00:00:00Z" = "1 minute ago"
    ∧ timeSince (fun _ => 0) 59000000000 "2024-01-01T00:00:00Z" = "59 seconds ago" :=
  ⟨timeSince_whole_seconds (fun _ => 0) 90000000000 "2024-01-01T00:00:00Z" 90
      (by decide) (by decide) (by decide),
   by decide, by decide, by decide⟩

/-! ## The page -/

theorem writeTiles_eq (parse : String → Int) (now : Nat → Int) (k : Nat)
    (s : List repoStatus) (w : String) :
    writeTiles parse now k s w
      = w ++ concat ((s.enumFrom k).map (fun kv =>
          "<a href=\"" ++ kv.2.URL ++ "\" target=\"_blank\"><div class=\"" ++ kv.2.Status
            ++ "\"><p>" ++ kv.2.Name ++ "</p><p>" ++ timeSince parse (now kv.1) kv.2.Time
            ++ "</p><p>" ++ kv.2.Time ++ "</p></div></a>")) := by
  induction s generalizing k w with
  | nil => simp [writeTiles, concat]
  | cons v rest ih =>
    simp only [writeTiles, ih, Fprintf, List.enumFrom_cons, List.map_cons, concat,
      String.append_assoc]

/-- C9: for every joined status list `s` the handler prints the head of the
page, then the concatenation, in the order of `s`, of one tile per status,
then the closing tags; the tile of a status is an anchor to the status URL
with target `_blank` around a div whose class is the status label and whose
three paragraphs are the repository name, `timeSince` of the timestamp and
the raw timestamp.  End to end: with the topic flag `ci`, the candidate `x`
carrying the topic `ci`, the commit `deadbeef` and one check-run of
conclusion `success`, the handler joins one status and prints one tile of
class `success` with the text `x`. -/
theorem render_one_tile_per_status :
    (∀ (cfg : Config) (parse : String → Int) (now : Nat → Int) (s : List repoStatus),
      render cfg parse now s
        = writeHead cfg "" ++ concat (s.enum.map (fun kv =>
            "<a href=\"" ++ kv.2.URL ++ "\" target=\"_blank\"><div class=\"" ++ kv.2.Status
              ++ "\"><p>" ++ kv.2.Name ++ "</p><p>" ++ timeSince parse (now kv.1) kv.2.Time
              ++ "</p><p>" ++ kv.2.Time ++ "</p></div></a>"))
          ++ "</body></html>"
      ∧ (s.enum.map (fun kv =>
            "<a href=\"" ++ kv.2.URL ++ "\" target=\"_blank\"><div class=\"" ++ kv.2.Status
              ++ "\"><p>" ++ kv.2.Name ++ "</p><p>" ++ timeSince parse (now kv.1) kv.2.Time
              ++ "</p><p>" ++ kv.2.Time ++ "</p></div></a>")).length = s.length)
    ∧ run { user := "u", topic := "ci" }
        (stub [{ Name := "x", FullName := "u/x", HTMLUrl := "https://host/u/x", Topics := ["ci"] }]
          [{ Sha := "deadbeef" }]
          { TotalCount := 1,
            CheckRuns := [{ Name := "build", Status := "completed", Conclusion := "success",
                            CompletedAt := "2024-01-01T00:00:00Z" }] })
        idle [.serve, .recv 0 0]
      = some
          { requests :=
              [{ repos := [{ Name := "x", FullName := "u/x", HTMLUrl := "https://host/u/x",
                             Topics := ["ci"] }],
                 s := [{ Name := "x", Status := "success", URL := "https://host/u/x",
                         Time := "2024-01-01T00:00:00Z" }],
                 i := 1 }],
            c := [] }
    ∧ ∀ (parse : String → Int) (now : Nat → Int),
        render { user := "u", topic := "ci" } parse now
            [{ Name := "x", Status := "success", URL := "https://host/u/x",
               Time := "2024-01-01T00:00:00Z" }]
          = writeHead { user := "u", topic := "ci" } ""
              ++ ("<a href=\"https://host/u/x\" target=\"_blank\"><div class=\"success\"><p>x</p><p>"
                ++ timeSince parse (now 0) "2024-01-01T00:00:00Z"
                ++ "</p><p>2024-01-01T00:00:00Z</p></div></a>")
              ++ "</body></html>" := by
  refine ⟨fun cfg parse now s => ⟨?_, by simp⟩, by decide, fun parse now => ?_⟩
  · simp only [render, writeTiles_eq, Fprintf, List.enum]
  · simp only [render, writeTiles_eq, Fprintf, List.enumFrom_cons, List.enumFrom_nil,
      List.map_cons, List.map_nil, concat, String.append_assoc]
    rfl

/-! ## The join -/

theorem startUnits_length (up : Upstream) (repos : List repoInfo) (c0 c : List repoStatus)
    (h : startUnits up repos c0 = .ok c) : c.length = c0.length + repos.length := by
  induction repos generalizing c0 with
  | nil =>
    simp only [startUnits] at h
    injection h with h
    simp [h]
  | cons repo rest ih =>
    simp only [startUnits] at h
    cases hd : doRepoWork up repo with
    | error e => rw [hd] at h; cases h
    | ok status =>
      rw [hd] at h
      have := ih _ h
      simp only [List.length_append, List.length_cons, List.length_nil] at this ⊢
      omega

theorem perm_cons_eraseIdx (l : List repoStatus) (u : Nat) (resp : repoStatus)
    (h : l[u]? = some resp) : l.Perm (resp :: l.eraseIdx u) := by
  induction l generalizing u with
  | nil => simp at h
  | cons a l ih =>
    cases u with
    | zero =>
      simp only [List.getElem?_cons_zero, Option.some.injEq] at h
      subst h
      simp
    | succ u =>
      simp only [List.getElem?_cons_succ] at h
      simp only [List.eraseIdx_cons_succ]
      exact ((ih u h).cons a).trans (List.Perm.swap resp a _)

theorem alone_after_serve (cfg : Config) (up : Upstream) (sv : Server)
    (h : step cfg up idle .serve = some sv) : Alone cfg up sv := by
  simp only [step, idle] at h
  cases hg : getRepos cfg up with
  | error e => rw [hg] at h; cases h
  | ok repos =>
    rw [hg] at h
    simp only at h
    cases hs : startUnits up repos [] with
    | error e => rw [hs] at h; cases h
    | ok c =>
      rw [hs] at h
      simp only [Option.some.injEq] at h
      subst h
      exact ⟨{ repos := repos, s := [], i := 0 }, c, by simp, hg, hs, by simp, rfl⟩

theorem alone_step_recv (cfg : Config) (up : Upstream) (sv sv1 : Server) (h u : Nat)
    (inv : Alone cfg up sv) (hstep : step cfg up sv (.recv h u) = some sv1) :
    Alone cfg up sv1 := by
  obtain ⟨r, sts, hreq, hg, hs, hperm, hi⟩ := inv
  simp only [step, hreq] at hstep
  cases h with
  | succ h => simp at hstep
  | zero =>
    cases hu : sv.c[u]? with
    | none => simp [hu] at hstep
    | some resp =>
      simp only [hu, List.getElem?_cons_zero] at hstep
      split_ifs at hstep with hlt
      simp only [Option.some.injEq] at hstep
      subst hstep
      refine ⟨{ r with s := r.s ++ [resp], i := r.i + 1 }, sts, by simp, hg, hs, ?_, by simp [hi]⟩
      refine List.Perm.trans ?_ hperm
      simp only [List.append_assoc, List.singleton_append]
      exact List.Perm.append_left _ (perm_cons_eraseIdx sv.c u resp hu).symm

theorem alone_run (cfg : Config) (up : Upstream) (es : List Event) (sv sv1 : Server)
    (hes : ∀ e ∈ es, e ≠ Event.serve) (inv : Alone cfg up sv)
    (hrun : run cfg up sv es = some sv1) : Alone cfg up sv1 := by
  induction es generalizing sv with
  | nil =>
    simp only [run, Option.some.injEq] at hrun
    exact hrun ▸ inv
  | cons e es ih =>
    simp only [run] at hrun
    cases hst : step cfg up sv e with
    | none => rw [hst] at hrun; cases hrun
    | some sv2 =>
      rw [hst] at hrun
      have hes2 : ∀ e ∈ es, e ≠ Event.serve := fun x hx => hes x (List.mem_cons_of_mem _ hx)
      cases e with
      | serve => exact absurd rfl (hes _ (List.mem_cons_self _ _))
      | recv h u => exact ih sv2 hes2 (alone_step_recv cfg up sv sv2 h u inv hst) hrun

/-- The join of a request served alone: when no other request arrives before
the receive loop of the one request is over, the collected statuses are a
permutation of the statuses `doRepoWork` builds for the request's
repositories, whatever the order of arrival. -/
theorem join_alone_perm (cfg : Config) (up : Upstream) (es : List Event) (sv : Server)
    (r : Request) (hes : ∀ e ∈ es, e ≠ Event.serve)
    (hrun : run cfg up idle (.serve :: es) = some sv)
    (hr : sv.requests[0]? = some r) (hj : r.joined = true) :
    ∃ sts, getRepos cfg up = .ok r.repos ∧ statusesOf up r.repos = .ok sts
      ∧ r.s.Perm sts ∧ r.s.length = r.repos.length := by
  simp only [run] at hrun
  cases hst : step cfg up idle .serve with
  | none => rw [hst] at hrun; cases hrun
  | some sv0 =>
    rw [hst] at hrun
    obtain ⟨r1, sts, hreq, hg, hs, hperm, hi⟩ :=
      alone_run cfg up es sv0 sv hes (alone_after_serve cfg up sv0 hst) hrun
    rw [hreq] at hr
    simp only [List.getElem?_cons_zero, Option.some.injEq] at hr
    subst hr
    have hlen : sts.length = r1.repos.length := by
      have := startUnits_length up r1.repos [] sts hs
      simpa using this
    have hpl := hperm.length_eq
    simp only [Request.joined, decide_eq_true_eq, not_lt] at hj
    simp only [List.length_append] at hpl
    have hc : sv.c = [] := List.eq_nil_of_length_eq_zero (by omega)
    rw [hc, List.append_nil] at hperm
    exact ⟨sts, hg, hs, hperm, by omega⟩

/-- A request served alone does complete its join: receiving the waiting
statuses in their order ends the receive loop with all of them collected. -/
theorem join_alone_completes (cfg : Config) (up : Upstream) (repos : List repoInfo)
    (sts : List repoStatus) (hg : getRepos cfg up = .ok repos)
    (hs : statusesOf up repos = .ok sts) :
    run cfg up idle (.serve :: List.replicate repos.length (.recv 0 0))
      = some { requests := [{ repos := repos, s := sts, i := repos.length }], c := [] } := by
  have hlen : sts.length = repos.length := by
    have := startUnits_length up repos [] sts hs
    simpa using this
  have key : ∀ (c s : List repoStatus) (i : Nat), i + c.length = repos.length →
      run cfg up { requests := [{ repos := repos, s := s, i := i }], c := c }
          (List.replicate c.length (.recv 0 0))
        = some { requests := [{ repos := repos, s := s ++ c, i := repos.length }], c := [] } := by
    intro c
    induction c with
    | nil =>
      intro s i hi
      simp only [List.length_nil, Nat.add_zero] at hi
      simp [run, hi]
    | cons a c ih =>
      intro s i hi
      simp only [List.length_cons] at hi
      have hlt : i < repos.length := by omega
      simp only [List.length_cons, List.replicate_succ, run, step, List.getElem?_cons_zero, hlt,
        if_true, List.set_cons_zero, List.eraseIdx_cons_zero]
      rw [ih (s ++ [a]) (i + 1) (by omega)]
      simp
  unfold statusesOf at hs
  simp only [run, step, idle, hg, hs, List.nil_append]
  have hk := key sts [] 0 (by omega)
  rw [hlen] at hk
  simpa using hk

/-- C1, the code at the failing input: two requests in flight at once, each
over the repositories `x` and `y`.  All four units wait on the one channel
`c`; the first request receives the status of `x` from its own unit and the
status of `x` from the unit of the second request.  Its receive loop is then
over with `x` collected twice and `y` never: the collected list is no
permutation of the statuses built for its repositories. -/
theorem join_takes_other_request_status :
    run { user := "u", includes := "x,y" }
        (stub [{ Name := "x", FullName := "u/x", HTMLUrl := "https://host/u/x", Topics := [] },
               { Name := "y", FullName := "u/y", HTMLUrl := "https://host/u/y", Topics := [] }]
          [{ Sha := "deadbeef" }] { TotalCount := 0, CheckRuns := [] })
        idle [.serve, .serve, .recv 0 0, .recv 0 1]
      = some
          { requests :=
              [{ repos := [{ Name := "x", FullName := "u/x", HTMLUrl := "https://host/u/x",
                             Topics := [] },
                           { Name := "y", FullName := "u/y", HTMLUrl := "https://host/u/y",
                             Topics := [] }],
                 s := [{ Name := "x", Status := "unknown", URL := "https://host/u/x", Time := "" },
                       { Name := "x", Status := "unknown", URL := "https://host/u/x", Time := "" }],
                 i := 2 },
               { repos := [{ Name := "x", FullName := "u/x", HTMLUrl := "https://host/u/x",
                             Topics := [] },
                           { Name := "y", FullName := "u/y", HTMLUrl := "https://host/u/y",
                             Topics := [] }],
                 s := [],
                 i := 0 }],
            c := [{ Name := "y", Status := "unknown", URL := "https://host/u/y", Time := "" },
                  { Name := "y", Status := "unknown", URL := "https://host/u/y", Time := "" }] }
    ∧ Request.joined
        { repos := [{ Name := "x", FullName := "u/x", HTMLUrl := "https://host/u/x", Topics := [] },
                    { Name := "y", FullName := "u/y", HTMLUrl := "https://host/u/y", Topics := [] }],
          s := [{ Name := "x", Status := "unknown", URL := "https://host/u/x", Time := "" },
                { Name := "x", Status := "unknown", URL := "https://host/u/x", Time := "" }],
          i := 2 } = true
    ∧ statusesOf
        (stub [] [{ Sha := "deadbeef" }] { TotalCount := 0, CheckRuns := [] })
        [{ Name := "x", FullName := "u/x", HTMLUrl := "https://host/u/x", Topics := [] },
         { Name := "y", FullName := "u/y", HTMLUrl := "https://host/u/y", Topics := [] }]
      = .ok [{ Name := "x", Status := "unknown", URL := "https://host/u/x", Time := "" },
             { Name := "y", Status := "unknown", URL := "https://host/u/y", Time := "" }]
    ∧ ¬ List.Perm
        [({ Name := "x", Status := "unknown", URL := "https://host/u/x", Time := "" } : repoStatus),
         { Name := "x", Status := "unknown", URL := "https://host/u/x", Time := "" }]
        [{ Name := "x", Status := "unknown", URL := "https://host/u/x", Time := "" },
         { Name := "y", Status := "unknown", URL := "https://host/u/y", Time := "" }] := by
  decide

end ActionsDashboard
